import Mathlib

/-!
Shallow embedding of the PetraCache memcached-compatible cache server
(protocol parser, connection-engine error recovery, and storage layer)
together with proofs about the behaviour its specification claims.

Bytes are modelled as `Nat` (values < 256 in practice), buffers as
`List Nat`.  Machine-word (`usize`/`u64`) arithmetic wraps modulo `2^64`
as in a release build; an operation that would panic in Rust (slice
index out of bounds, inverted slice range) is modelled by returning
`none` from an `Option`-valued function.
-/

namespace PetraCache

/-- Cardinality `2^64` of the values of the 64-bit machine word (`usize`/`u64`). -/
def USIZE : Nat := 2 ^ 64

/-- Wrapping machine-word addition (release-build `usize`/`u64` `+`). -/
def wadd (a b : Nat) : Nat := (a + b) % USIZE

/-- Rust `&buf[a..b]`: the sub-slice, or `none` (= panic) when the range is
inverted or out of bounds. -/
def listSlice (buf : List Nat) (a b : Nat) : Option (List Nat) :=
  if a ≤ b ∧ b ≤ buf.length then some ((buf.drop a).take (b - a)) else none

/-- Little-endian interpretation of a byte list as an unsigned integer
(`u64::from_le_bytes` / `u32::from_le_bytes` applied to the list). -/
def fromLeBytes (bytes : List Nat) : Nat :=
  bytes.foldr (fun b acc => b + 256 * acc) 0

/-- The `k` little-endian bytes of `n` (`n.to_le_bytes()` for a `k`-byte
integer type). -/
def toLeBytes (k n : Nat) : List Nat :=
  match k with
  | 0 => []
  | k + 1 => n % 256 :: toLeBytes k (n / 256)

/-! ## Protocol layer: `src/protocol/command.rs` -/

/-- Constant `MAX_KEY_LENGTH` (memcached spec). -/
def MAX_KEY_LENGTH : Nat := 250

/-- Function `is_valid_key` from `command.rs`: non-empty, at most 250 bytes, every
byte strictly between 0x20 and 0x7F. -/
def is_valid_key (key : List Nat) : Bool :=
  if key.isEmpty || decide (key.length > MAX_KEY_LENGTH) then false
  else key.all (fun b => decide (b > 32) && decide (b < 127))

/-- Parsed command (the variants the §3 data model lists and the parser
produces: `get`, `set`, `delete`, `version`, `quit`). -/
inductive Command where
  | get (keys : List (List Nat))
  | set (key : List Nat) (flags : Nat) (exptime : Nat) (data : List Nat) (noreply : Bool)
  | delete (key : List Nat) (noreply : Bool)
  | version
  | quit
  deriving DecidableEq, Repr

/-! ## Protocol layer: `src/protocol/parser.rs` and `src/error.rs` -/

/-- Protocol-level error kinds (`ProtocolError` in `error.rs`; message
payloads are dropped, the claims only concern the kind). -/
inductive ProtocolError where
  | invalidCommand
  | invalidKey
  | keyTooLong
  | invalidFlags
  | invalidExptime
  | invalidBytesLength
  | unexpectedData
  deriving DecidableEq, Repr

/-- Type `ParseResult` from `parser.rs`. -/
inductive ParseResult where
  | complete (cmd : Command) (consumed : Nat)
  | needMoreData
  | error (e : ProtocolError)
  deriving DecidableEq, Repr

/-- Structure `PendingStorageCommand` from `parser.rs`. -/
structure PendingStorageCommand where
  key : List Nat
  flags : Nat
  exptime : Nat
  bytes : Nat
  noreply : Bool
  command_line_end : Nat
  deriving DecidableEq, Repr

/-- ASCII bytes of `"get"`. -/
def GET_BYTES : List Nat := [103, 101, 116]

/-- ASCII bytes of `"set"`. -/
def SET_BYTES : List Nat := [115, 101, 116]

/-- ASCII bytes of `"delete"`. -/
def DELETE_BYTES : List Nat := [100, 101, 108, 101, 116, 101]

/-- ASCII bytes of `"version"`. -/
def VERSION_BYTES : List Nat := [118, 101, 114, 115, 105, 111, 110]

/-- ASCII bytes of `"quit"`. -/
def QUIT_BYTES : List Nat := [113, 117, 105, 116]

/-- ASCII bytes of `"noreply"`. -/
def NOREPLY_BYTES : List Nat := [110, 111, 114, 101, 112, 108, 121]

/-- Model of `u8::to_ascii_lowercase`. -/
def to_ascii_lowercase (b : Nat) : Nat :=
  if 65 ≤ b ∧ b ≤ 90 then b + 32 else b

/-- Function `cmd_eq` from `parser.rs`: length equality plus byte-wise lowercased
comparison against the canonical lowercase token. -/
def cmd_eq (cmd expected : List Nat) : Bool :=
  cmd.length == expected.length &&
    (cmd.zip expected).all (fun p => to_ascii_lowercase p.1 == p.2)

/-- Function `find_crlf` from `parser.rs`: first index `i` (scanning positions
`0 .. len-2`) with `buf[i] = CR` and `buf[i+1] = LF`. -/
def find_crlf (buf : List Nat) : Option Nat :=
  (List.range (buf.length - 1)).find?
    (fun i => buf.get? i == some 13 && buf.get? (i + 1) == some 10)

/-- Value of a string of ASCII decimal digits (the accumulation loop of
Rust `from_str_radix`). -/
def digitsVal (ds : List Nat) : Nat :=
  ds.foldl (fun acc b => acc * 10 + (b - 48)) 0

/-- Model of Rust `std::str::from_utf8(tok).ok()?.parse::<uN>().ok()`
(the bodies of `parse_u32` / `parse_u64` / `parse_usize`): an optional
leading `'+'` followed by one or more ASCII decimal digits whose value is
below `bound = 2^N`; every other byte string (leading `'-'`, whitespace,
empty, non-digit or non-UTF-8 bytes, overflow) yields `none`. -/
def rust_parse_unsigned (bound : Nat) (tok : List Nat) : Option Nat :=
  let ds := if tok.head? = some 43 then tok.tail else tok
  if ds ≠ [] ∧ ds.all (fun b => decide (48 ≤ b) && decide (b ≤ 57)) ∧
      digitsVal ds < bound then
    some (digitsVal ds)
  else none

/-- Function `parse_u32` from `parser.rs`. -/
def parse_u32 (tok : List Nat) : Option Nat := rust_parse_unsigned (2 ^ 32) tok

/-- Function `parse_u64` from `parser.rs`. -/
def parse_u64 (tok : List Nat) : Option Nat := rust_parse_unsigned (2 ^ 64) tok

/-- Function `parse_usize` from `parser.rs` (64-bit machine word). -/
def parse_usize (tok : List Nat) : Option Nat := rust_parse_unsigned (2 ^ 64) tok

/-- The `[noreply]` tail of a storage-command header:
`parts.next().map(|s| s == b"noreply").unwrap_or(false)`, identical in
`parse_set` and `parse_storage_command_line`. -/
def noreply_tok (parts : List (List Nat)) : Bool :=
  match parts with
  | [] => false
  | s :: _ => s == NOREPLY_BYTES

/-- Function `parse_get` from `parser.rs`: remaining tokens are keys; empty tokens
are skipped; invalid keys abort with `KeyTooLong` / `InvalidKey`; zero
keys is an error. -/
def parse_get (parts : List (List Nat)) (keys : List (List Nat)) (consumed : Nat) :
    ParseResult :=
  match parts with
  | [] =>
      if keys.isEmpty then .error .invalidCommand
      else .complete (.get keys) consumed
  | part :: rest =>
      if part = [] then parse_get rest keys consumed
      else if ¬ is_valid_key part then
        if part.length > MAX_KEY_LENGTH then .error .keyTooLong
        else .error .invalidKey
      else parse_get rest (keys ++ [part]) consumed

/-- Function `parse_delete` from `parser.rs`: key, then optional ignored exptime
token and `noreply` recognized in any position. -/
def parse_delete (parts : List (List Nat)) (consumed : Nat) : ParseResult :=
  match parts with
  | [] => .error .invalidCommand
  | key :: parts =>
    if key = [] then .error .invalidCommand
    else if ¬ is_valid_key key then
      if key.length > MAX_KEY_LENGTH then .error .keyTooLong
      else .error .invalidKey
    else .complete (.delete key (parts.any (fun p => p == NOREPLY_BYTES))) consumed

/-- Function `parse_set` from `parser.rs`, taking the token iterator after the
command name, the whole buffer and the command-line end.  `none` models a
Rust panic. -/
def parse_set (parts : List (List Nat)) (buf : List Nat) (line_end : Nat) :
    Option ParseResult :=
  match parts with
  | [] => some (.error .invalidCommand)
  | key :: parts =>
  if key = [] then some (.error .invalidCommand)
  else if ¬ is_valid_key key then
    if key.length > MAX_KEY_LENGTH then some (.error .keyTooLong)
    else some (.error .invalidKey)
  else
    match parts with
    | [] => some (.error .invalidFlags)
    | flagsTok :: parts =>
    match parse_u32 flagsTok with
    | none => some (.error .invalidFlags)
    | some flags =>
      match parts with
      | [] => some (.error .invalidExptime)
      | exptimeTok :: parts =>
      match parse_u64 exptimeTok with
      | none => some (.error .invalidExptime)
      | some exptime =>
        match parts with
        | [] => some (.error .invalidBytesLength)
        | bytesTok :: parts =>
        match parse_usize bytesTok with
        | none => some (.error .invalidBytesLength)
        | some bytes =>
          let noreply := noreply_tok parts
          let data_start := wadd line_end 2
          let data_end := wadd data_start bytes
          let total_needed := wadd data_end 2
          if buf.length < total_needed then some .needMoreData
          else match buf.get? data_end with
            | none => none
            | some c1 =>
              if c1 ≠ 13 then some (.error .unexpectedData)
              else match buf.get? (wadd data_end 1) with
                | none => none
                | some c2 =>
                  if c2 ≠ 10 then some (.error .unexpectedData)
                  else match listSlice buf data_start data_end with
                    | none => none
                    | some data =>
                      some (.complete (.set key flags exptime data noreply) total_needed)

/-- Function `parse` from `parser.rs`: find the command line, split on spaces,
dispatch on the case-insensitive command name. `none` models a panic. -/
def parse (buf : List Nat) : Option ParseResult :=
  match find_crlf buf with
  | none => some .needMoreData
  | some line_end =>
    let line := buf.take line_end
    match line.splitOn 32 with
    | [] => some (.error .invalidCommand)
    | cmd_name :: parts =>
      if cmd_name = [] then some (.error .invalidCommand)
      else if cmd_eq cmd_name GET_BYTES then some (parse_get parts [] (wadd line_end 2))
      else if cmd_eq cmd_name SET_BYTES then parse_set parts buf line_end
      else if cmd_eq cmd_name DELETE_BYTES then some (parse_delete parts (wadd line_end 2))
      else if cmd_eq cmd_name VERSION_BYTES then some (.complete .version (wadd line_end 2))
      else if cmd_eq cmd_name QUIT_BYTES then some (.complete .quit (wadd line_end 2))
      else some (.error .invalidCommand)

/-- Function `parse_storage_data` from `parser.rs`: phase-2 completion of a
pending SET.  `none` models a panic. -/
def parse_storage_data (buf : List Nat) (pending : PendingStorageCommand) :
    Option ParseResult :=
  let data_start := wadd pending.command_line_end 2
  let data_end := wadd data_start pending.bytes
  let total_needed := wadd data_end 2
  if buf.length < total_needed then some .needMoreData
  else match buf.get? data_end with
    | none => none
    | some c1 =>
      if c1 ≠ 13 then some (.error .unexpectedData)
      else match buf.get? (wadd data_end 1) with
        | none => none
        | some c2 =>
          if c2 ≠ 10 then some (.error .unexpectedData)
          else match listSlice buf data_start data_end with
            | none => none
            | some data =>
              some (.complete
                (.set pending.key pending.flags pending.exptime data pending.noreply)
                total_needed)

/-- Function `parse_storage_command_line` from `parser.rs`: parse only the SET
header line into a pending descriptor; `Ok none` when the line is
incomplete or the command is not `set`. -/
def parse_storage_command_line (buf : List Nat) :
    Except ProtocolError (Option PendingStorageCommand) :=
  match find_crlf buf with
  | none => .ok none
  | some line_end =>
    let line := buf.take line_end
    match line.splitOn 32 with
    | [] => .error .invalidCommand
    | cmd_name :: parts =>
      if cmd_name = [] then .error .invalidCommand
      else if ¬ cmd_eq cmd_name SET_BYTES then .ok none
      else match parts with
      | [] => .error .invalidCommand
      | key :: parts =>
        if key = [] then .error .invalidCommand
        else if ¬ is_valid_key key then
          if key.length > MAX_KEY_LENGTH then .error .keyTooLong
          else .error .invalidKey
        else
          match parts with
          | [] => .error .invalidFlags
          | flagsTok :: parts =>
          match parse_u32 flagsTok with
          | none => .error .invalidFlags
          | some flags =>
            match parts with
            | [] => .error .invalidExptime
            | exptimeTok :: parts =>
            match parse_u64 exptimeTok with
            | none => .error .invalidExptime
            | some exptime =>
              match parts with
              | [] => .error .invalidBytesLength
              | bytesTok :: parts =>
              match parse_usize bytesTok with
              | none => .error .invalidBytesLength
              | some bytes =>
                .ok (some ⟨key, flags, exptime, bytes, noreply_tok parts, line_end⟩)

/-! ## Connection engine: `src/server/connection.rs` and
`src/protocol/response.rs` -/

/-- Function `find_crlf` from `connection.rs`: `memchr` locates the first CR in the
buffer; the hit is kept only when the byte right after it is LF. -/
def conn_find_crlf (buf : List Nat) : Option Nat :=
  (buf.findIdx? (fun b => b == 13)).filter (fun i => buf.get? (i + 1) == some 10)

/-- ASCII bytes of `"CLIENT_ERROR "`. -/
def CLIENT_ERROR_BYTES : List Nat :=
  [67, 76, 73, 69, 78, 84, 95, 69, 82, 82, 79, 82, 32]

/-- Method `ResponseWriter::client_error` from `response.rs`: append
`CLIENT_ERROR <message>\r\n` to the response buffer. -/
def client_error (respBuf msg : List Nat) : List Nat :=
  respBuf ++ CLIENT_ERROR_BYTES ++ msg ++ [13, 10]

/-- Per-connection state owned by `handle` in `connection.rs`. -/
structure ConnState where
  read_buf : List Nat
  response : List Nat
  pending_storage : Option PendingStorageCommand
  deriving DecidableEq, Repr

/-- The `ParseResult::Error` arm of `handle` in `connection.rs`: append a
`CLIENT_ERROR` line to the response buffer, resynchronize the read buffer
using `conn_find_crlf` (advance past the hit, or clear the buffer when
there is none), and drop any pending-SET descriptor.  The response buffer
is flushed to the socket right after this state change. -/
def handle_parse_error (st : ConnState) (msg : List Nat) : ConnState :=
  { read_buf :=
      match conn_find_crlf st.read_buf with
      | some pos => st.read_buf.drop (pos + 2)
      | none => []
    response := client_error st.response msg
    pending_storage := none }

/-! ## Storage layer: `src/storage/value.rs` -/

/-- Constant `MAX_RELATIVE_TTL` from `value.rs` (30 days in seconds). -/
def MAX_RELATIVE_TTL : Nat := 2592000

/-- Structure `StoredValue` from `value.rs`. -/
structure StoredValue where
  expire_at : Nat
  flags : Nat
  data : List Nat
  deriving DecidableEq, Repr

/-- Storage-level error kinds (`StorageError` in `error.rs`; payloads
dropped). -/
inductive StorageError where
  | decoding
  | rocksDb
  deriving DecidableEq, Repr

/-- Method `StoredValue::encode`: 8 little-endian bytes of `expire_at`, then 4
little-endian bytes of `flags`, then the data. -/
def StoredValue.encode (v : StoredValue) : List Nat :=
  toLeBytes 8 v.expire_at ++ toLeBytes 4 v.flags ++ v.data

/-- Method `StoredValue::decode`: reject anything shorter than 12 bytes, then
read `expire_at` from bytes 0..8, `flags` from bytes 8..12, data from byte
12 on.  (The source's `try_into` failure arms are unreachable once the
length check has passed.) -/
def StoredValue.decode (bytes : List Nat) : Except StorageError StoredValue :=
  if bytes.length < 12 then .error .decoding
  else .ok ⟨fromLeBytes (bytes.take 8), fromLeBytes ((bytes.drop 8).take 4), bytes.drop 12⟩

/-- Method `StoredValue::is_expired`, with the ambient `current_timestamp()`
passed explicitly as `now`. -/
def StoredValue.is_expired (v : StoredValue) (now : Nat) : Bool :=
  if v.expire_at = 0 then false else decide (now ≥ v.expire_at)

/-- Function `calculate_expire_at` from `value.rs`, with `current_timestamp()`
passed explicitly as `now`; the `now + exptime` is a `u64` addition. -/
def calculate_expire_at (now exptime : Nat) : Nat :=
  if exptime = 0 then 0
  else if exptime ≤ MAX_RELATIVE_TTL then wadd now exptime
  else exptime

/-! ## Storage layer: `src/storage/rocks.rs`

The LSM engine is the black box the spec describes: each key lookup
yields `Except Unit (Option bytes)` (engine error / miss / raw bytes).
The global counters are modelled by returning the increment each call
applies to them. -/

/-- Per-key answer of the black-box engine (`db.get` / one slot of
`db.multi_get`). -/
abbrev EngineResult := Except Unit (Option (List Nat))

/-- Method `RocksStorage::get`: engine lookup, decode, lazy expiration.  `db`
is the engine's content, `now` the ambient timestamp, `_del_ok` whether
the fire-and-forget delete succeeds (its result is discarded by the
source with `let _ = ...`).  Returns the call's result together with the
increment applied to the expired-by-lazy counter. -/
def RocksStorage.get (db : List Nat → EngineResult) (now : Nat) (_del_ok : Bool)
    (key : List Nat) : Except StorageError (Option StoredValue) × Nat :=
  match db key with
  | .error _ => (.error .rocksDb, 0)
  | .ok none => (.ok none, 0)
  | .ok (some bytes) =>
    match StoredValue.decode bytes with
    | .error e => (.error e, 0)
    | .ok value =>
      if value.is_expired now then (.ok none, 1)
      else (.ok (some value), 0)

/-- Method `RocksStorage::get_multi`: walk the engine's batched answers in input
order; misses and expired hits produce `None` entries, the first engine
or decode error aborts the batch, and the expired-by-lazy counter is
incremented by the number of expired hits (the source adds
`expired_keys.len()` once after the loop; the per-key batch deletes are
fire-and-forget).  Returns `(results, counter increment)`. -/
def RocksStorage.get_multi (db : List Nat → EngineResult) (now : Nat) :
    List (List Nat) → Except StorageError (List (List Nat × Option StoredValue) × Nat)
  | [] => .ok ([], 0)
  | key :: keys =>
    match db key with
    | .error _ => .error .rocksDb
    | .ok none =>
      match RocksStorage.get_multi db now keys with
      | .error e => .error e
      | .ok (results, n) => .ok ((key, none) :: results, n)
    | .ok (some bytes) =>
      match StoredValue.decode bytes with
      | .error e => .error e
      | .ok value =>
        if value.is_expired now then
          match RocksStorage.get_multi db now keys with
          | .error e => .error e
          | .ok (results, n) => .ok ((key, none) :: results, n + 1)
        else
          match RocksStorage.get_multi db now keys with
          | .error e => .error e
          | .ok (results, n) => .ok ((key, some value) :: results, n)

/-- The entry the lazy-expiration policy yields for one key: `none` for
an engine miss or an expired hit, the decoded value otherwise.  Used to
state C7 (under C7's hypotheses a decode failure never reaches an entry,
so its `none` arm is unexercised). -/
def lazy_entry (db : List Nat → EngineResult) (now : Nat) (k : List Nat) :
    Option StoredValue :=
  match db k with
  | .ok (some bytes) =>
    match StoredValue.decode bytes with
    | .ok v => if v.is_expired now then none else some v
    | .error _ => none
  | _ => none

/-- Whether a key is an expired hit (its stored bytes decode to an
expired value); such keys feed the expired-by-lazy counter.  Used to
state C7. -/
def expired_hit (db : List Nat → EngineResult) (now : Nat) (k : List Nat) : Bool :=
  match db k with
  | .ok (some bytes) =>
    match StoredValue.decode bytes with
    | .ok v => v.is_expired now
    | .error _ => false
  | _ => false

/-- Type `CompactionDecision` (from the engine API used in `rocks.rs`). -/
inductive CompactionDecision where
  | keep
  | remove
  deriving DecidableEq, Repr

/-- Function `ttl_compaction_filter` from `rocks.rs`: when the value has at least
8 bytes, read its first 8 bytes as a little-endian `expire_at`; remove
exactly when that is nonzero and not in the future.  Returns the decision
together with the increment applied to the compaction-removed counter.
(The source's `try_into(...).unwrap_or([0; 8])` fallback is unreachable
under the length guard.) -/
def ttl_compaction_filter (now : Nat) (value : List Nat) :
    CompactionDecision × Nat :=
  if 8 ≤ value.length then
    if fromLeBytes (value.take 8) ≠ 0 ∧ now ≥ fromLeBytes (value.take 8) then
      (.remove, 1)
    else (.keep, 0)
  else (.keep, 0)

/-! ## Helper lemmas -/

/-- A key accepted by `is_valid_key` is non-empty. -/
theorem is_valid_key_ne_nil {key : List Nat} (h : is_valid_key key = true) :
    key ≠ [] := by
  intro hk
  subst hk
  simp [is_valid_key] at h

/-- Every `toLeBytes k n` has exactly `k` bytes. -/
theorem toLeBytes_length (k : Nat) : ∀ n, (toLeBytes k n).length = k := by
  induction k with
  | zero => intro n; rfl
  | succ k ih => intro n; simp [toLeBytes, ih]

/-- Reading back the `k` little-endian bytes of `n` recovers `n` when `n`
fits in `k` bytes. -/
theorem fromLeBytes_toLeBytes (k : Nat) : ∀ n, n < 256 ^ k →
    fromLeBytes (toLeBytes k n) = n := by
  induction k with
  | zero =>
    intro n h
    simp [Nat.pow_zero] at h
    simp [toLeBytes, fromLeBytes, h]
  | succ k ih =>
    intro n h
    have hdiv : n / 256 < 256 ^ k := by
      rw [Nat.div_lt_iff_lt_mul (by norm_num)]
      calc n < 256 ^ (k + 1) := h
        _ = 256 ^ k * 256 := by ring
    simp only [toLeBytes, fromLeBytes, List.foldr_cons]
    rw [show List.foldr (fun b acc => b + 256 * acc) 0 (toLeBytes k (n / 256)) =
        fromLeBytes (toLeBytes k (n / 256)) from rfl, ih _ hdiv]
    omega

/-! ## Claims -/

/-- C9: `is_valid_key` accepts a byte string exactly when it is non-empty,
its length is at most 250, and every byte is strictly greater than 0x20
and strictly less than 0x7F. -/
theorem C9_key_validation (key : List Nat) :
    is_valid_key key = true ↔
      key ≠ [] ∧ key.length ≤ 250 ∧ ∀ b ∈ key, 32 < b ∧ b < 127 := by
  unfold is_valid_key MAX_KEY_LENGTH
  by_cases h1 : (key.isEmpty || decide (key.length > 250)) = true
  · simp only [h1, if_true]
    simp only [Bool.or_eq_true, List.isEmpty_iff, decide_eq_true_eq] at h1
    constructor
    · intro h
      exact Bool.noConfusion h
    · rintro ⟨hne, hlen, -⟩
      rcases h1 with h1 | h1
      · exact absurd h1 hne
      · omega
  · simp only [h1, Bool.false_eq_true, if_false]
    simp only [Bool.or_eq_true, List.isEmpty_iff, decide_eq_true_eq, not_or] at h1
    obtain ⟨hne, hlen⟩ := h1
    simp only [List.all_eq_true, Bool.and_eq_true, decide_eq_true_eq]
    constructor
    · intro h
      exact ⟨hne, by omega, fun b hb => (h b hb)⟩
    · rintro ⟨-, -, h⟩
      exact fun b hb => h b hb

/-- C8: `calculate_expire_at` maps `exptime = 0` to `0`, a relative
`exptime` in `[1, 2_592_000]` to `now + exptime`, and a larger `exptime`
to itself, for `u64` values of `now` and `exptime`. -/
theorem C8_expire_at (now exptime : Nat) (_hn : now < 2 ^ 64)
    (_he : exptime < 2 ^ 64) :
    (exptime = 0 → calculate_expire_at now exptime = 0) ∧
    (1 ≤ exptime → exptime ≤ 2592000 → now + exptime < 2 ^ 64 →
      calculate_expire_at now exptime = now + exptime) ∧
    (2592000 < exptime → calculate_expire_at now exptime = exptime) := by
  refine ⟨fun h => by simp [calculate_expire_at, h], fun h1 h2 hov => ?_, fun h => ?_⟩
  · have h0 : exptime ≠ 0 := by omega
    simp only [calculate_expire_at, MAX_RELATIVE_TTL, h0, if_false, h2, if_true]
    exact Nat.mod_eq_of_lt hov
  · have h0 : exptime ≠ 0 := by omega
    have h2 : ¬ exptime ≤ MAX_RELATIVE_TTL := by unfold MAX_RELATIVE_TTL; omega
    simp [calculate_expire_at, h0, h2]

/-- Witness for C8 at a concrete time and relative exptime. -/
theorem C8_expire_at_witness : calculate_expire_at 1700000000 60 = 1700000060 :=
  (C8_expire_at 1700000000 60 (by norm_num) (by norm_num)).2.1
    (by norm_num) (by norm_num) (by norm_num)

/-- C5: the compaction filter returns `Remove` (with a counter increment
of one) exactly when the value has at least 8 bytes whose little-endian
`u64` reading is nonzero and at most `now`; in every other case it
returns `Keep` with no increment. -/
theorem C5_compaction_filter (now : Nat) (value : List Nat) :
    (ttl_compaction_filter now value = (.remove, 1) ↔
      8 ≤ value.length ∧ fromLeBytes (value.take 8) ≠ 0 ∧
        fromLeBytes (value.take 8) ≤ now) ∧
    (ttl_compaction_filter now value = (.remove, 1) ∨
      ttl_compaction_filter now value = (.keep, 0)) := by
  constructor
  · constructor
    · intro h
      unfold ttl_compaction_filter at h
      split at h
      · next h8 =>
        split at h
        · next hc => exact ⟨h8, hc.1, hc.2⟩
        · simp at h
      · simp at h
    · rintro ⟨h8, hz, hle⟩
      unfold ttl_compaction_filter
      rw [if_pos h8, if_pos ⟨hz, hle⟩]
  · unfold ttl_compaction_filter
    split
    · split
      · exact Or.inl rfl
      · exact Or.inr rfl
    · exact Or.inr rfl

/-- Witness for C5: an 8-byte value holding `expire_at = 1` is removed at
`now = 9`. -/
theorem C5_compaction_filter_witness :
    ttl_compaction_filter 9 [1, 0, 0, 0, 0, 0, 0, 0] = (.remove, 1) :=
  (C5_compaction_filter 9 [1, 0, 0, 0, 0, 0, 0, 0]).1.mpr (by decide)

/-- C4: when the stored bytes of a key decode to a value, the storage GET
returns `Ok none` and bumps the expired-by-lazy counter by one exactly
when the value has a nonzero `expire_at` that is not in the future;
otherwise it returns the value unchanged with no increment; and the
outcome of the fire-and-forget delete never changes the result. -/
theorem C4_lazy_expiration (db : List Nat → EngineResult) (now : Nat)
    (key bytes : List Nat) (v : StoredValue) (d d1 d2 : Bool)
    (hdb : db key = .ok (some bytes))
    (hdec : StoredValue.decode bytes = .ok v) :
    (v.expire_at ≠ 0 → v.expire_at ≤ now →
      RocksStorage.get db now d key = (.ok none, 1)) ∧
    ((v.expire_at = 0 ∨ now < v.expire_at) →
      RocksStorage.get db now d key = (.ok (some v), 0)) ∧
    RocksStorage.get db now d1 key = RocksStorage.get db now d2 key := by
  refine ⟨fun h1 h2 => ?_, fun h => ?_, rfl⟩
  · have hexp : v.is_expired now = true := by
      simp [StoredValue.is_expired, h1, ge_iff_le, h2]
    simp [RocksStorage.get, hdb, hdec, hexp]
  · have hexp : v.is_expired now = false := by
      unfold StoredValue.is_expired
      split
      · rfl
      · next h0 =>
        rcases h with h | h
        · exact absurd h h0
        · simp only [ge_iff_le, decide_eq_false_iff_not, not_le]
          omega
    simp [RocksStorage.get, hdb, hdec, hexp]

/-- Engine content used by the C4 witness: every key maps to an encoded
value that expired at time 1. -/
def C4_engine : List Nat → EngineResult :=
  fun _ => .ok (some (StoredValue.encode ⟨1, 7, [120]⟩))

/-- Witness for C4: the expired value is reported as a miss with a
counter increment of one. -/
theorem C4_lazy_expiration_witness :
    RocksStorage.get C4_engine 5 true [9] = (.ok none, 1) :=
  (C4_lazy_expiration C4_engine 5 [9] (StoredValue.encode ⟨1, 7, [120]⟩)
    ⟨1, 7, [120]⟩ true true false rfl rfl).1 (by decide) (by decide)

/-- C1 (code bug): after a parse error on read buffer `"a\rb\r\nc"`, the
handler clears the read buffer entirely even though the buffer contains
the `\r\n` pair at index 3 (so the claimed behaviour would retain the
byte after it); the `CLIENT_ERROR` append and the pending-SET clearing do
happen.  The culprit is `connection.rs`'s `find_crlf`, which inspects
only the first `\r`. -/
theorem C1_resync_clears_despite_crlf :
    (handle_parse_error
        ⟨[97, 13, 98, 13, 10, 99], [], some ⟨[107], 0, 0, 0, false, 0⟩⟩
        [98, 97, 100] =
      ⟨[], [67, 76, 73, 69, 78, 84, 95, 69, 82, 82, 79, 82, 32, 98, 97, 100, 13, 10],
        none⟩) ∧
    find_crlf [97, 13, 98, 13, 10, 99] = some 3 ∧
    List.drop (3 + 2) [97, 13, 98, 13, 10, 99] = [99] := by
  decide

/-- C3 (code bug): on the frame `set k 0 0 18446744073709551614\r\n` the
declared byte count `2^64 - 2` wraps the `data_start + bytes` machine
arithmetic so that the terminator check reads the header's own `\r\n` and
the body slice `buf[32..30]` is inverted: `parse` panics instead of
returning a result, and the two-phase path accepts the header and then
panics in `parse_storage_data` the same way. -/
theorem C3_parse_panics :
    parse [115, 101, 116, 32, 107, 32, 48, 32, 48, 32, 49, 56, 52, 52, 54, 55, 52,
        52, 48, 55, 51, 55, 48, 57, 53, 53, 49, 54, 49, 52, 13, 10] = none ∧
    parse_storage_command_line [115, 101, 116, 32, 107, 32, 48, 32, 48, 32, 49, 56,
        52, 52, 54, 55, 52, 52, 48, 55, 51, 55, 48, 57, 53, 53, 49, 54, 49, 52, 13, 10] =
      .ok (some ⟨[107], 0, 0, 18446744073709551614, false, 30⟩) ∧
    parse_storage_data [115, 101, 116, 32, 107, 32, 48, 32, 48, 32, 49, 56, 52, 52,
        54, 55, 52, 52, 48, 55, 51, 55, 48, 57, 53, 53, 49, 54, 49, 52, 13, 10]
      ⟨[107], 0, 0, 18446744073709551614, false, 30⟩ = none := by
  exact ⟨by decide, rfl, by decide⟩

/-- C10: decoding an encoded stored value recovers it exactly, and the
encoding is 8 little-endian bytes of `expire_at`, then 4 little-endian
bytes of `flags`, then the data (for `u64` / `u32` field values). -/
theorem C10_roundtrip (v : StoredValue) (he : v.expire_at < 2 ^ 64)
    (hf : v.flags < 2 ^ 32) :
    StoredValue.decode (StoredValue.encode v) = .ok v ∧
    StoredValue.encode v = toLeBytes 8 v.expire_at ++ toLeBytes 4 v.flags ++ v.data := by
  refine ⟨?_, rfl⟩
  have h8 : (toLeBytes 8 v.expire_at).length = 8 := toLeBytes_length 8 _
  have h4 : (toLeBytes 4 v.flags).length = 4 := toLeBytes_length 4 _
  have henc : StoredValue.encode v =
      toLeBytes 8 v.expire_at ++ (toLeBytes 4 v.flags ++ v.data) := by
    rw [StoredValue.encode, List.append_assoc]
  unfold StoredValue.decode
  rw [henc]
  have hlen : (toLeBytes 8 v.expire_at ++ (toLeBytes 4 v.flags ++ v.data)).length =
      12 + v.data.length := by
    simp [h8, h4]
    omega
  rw [if_neg (by omega)]
  rw [List.take_left' h8, List.drop_left' h8, List.take_left' h4]
  rw [show (12 : Nat) = 8 + 4 from rfl, ← List.drop_drop, List.drop_left' h8,
    List.drop_left' h4]
  rw [fromLeBytes_toLeBytes 8 _ (by norm_num at he ⊢; exact he),
    fromLeBytes_toLeBytes 4 _ (by norm_num at hf ⊢; exact hf)]

/-- C2 counterexample: the SET header line `set k +1 0 0\r\n` followed by
its empty body, whose flags token `+1` carries a leading `'+'`, parses to
`Complete` with flags `1` rather than to `Error(InvalidFlags)` as the
claim demands for signed tokens. -/
theorem C2_plus_sign_accepted :
    parse [115, 101, 116, 32, 107, 32, 43, 49, 32, 48, 32, 48, 13, 10, 13, 10] =
      some (.complete (.set [107] 1 0 [] false) 16) ∧
    parse [115, 101, 116, 32, 107, 32, 43, 49, 32, 48, 32, 48, 13, 10, 13, 10] ≠
      some (.error .invalidFlags) := by
  decide

/-- C2 (amended): an integer token of a SET header is accepted exactly
when it is an optional leading `'+'` followed by one or more ASCII
decimal digits whose value fits the target width — so a leading `'+'` is
accepted, while `'-'`, whitespace and every other deviation is rejected —
and a failing flags / exptime / bytes token makes `parse_set` return
`InvalidFlags` / `InvalidExptime` / `InvalidBytesLength` respectively. -/
theorem C2_integer_tokens (bound n : Nat) (tok key fTok eTok bTok : List Nat)
    (rest : List (List Nat)) (buf : List Nat) (line_end : Nat)
    (hkey : is_valid_key key = true) :
    (rust_parse_unsigned bound tok = some n ↔
      ∃ ds, (tok = ds ∨ tok = 43 :: ds) ∧ ds ≠ [] ∧
        (∀ b ∈ ds, 48 ≤ b ∧ b ≤ 57) ∧
        digitsVal ds < bound ∧
        n = digitsVal ds) ∧
    (parse_u32 fTok = none →
      parse_set (key :: fTok :: eTok :: bTok :: rest) buf line_end =
        some (.error .invalidFlags)) ∧
    (∀ f, parse_u32 fTok = some f → parse_u64 eTok = none →
      parse_set (key :: fTok :: eTok :: bTok :: rest) buf line_end =
        some (.error .invalidExptime)) ∧
    (∀ f e, parse_u32 fTok = some f → parse_u64 eTok = some e →
      parse_usize bTok = none →
      parse_set (key :: fTok :: eTok :: bTok :: rest) buf line_end =
        some (.error .invalidBytesLength)) := by
  have hne : key ≠ [] := is_valid_key_ne_nil hkey
  refine ⟨?_, ?_, ?_, ?_⟩
  · constructor
    · intro h
      simp only [rust_parse_unsigned] at h
      by_cases hh : tok.head? = some 43
      · rw [if_pos hh] at h
        split at h
        · next hc =>
          have htok : tok = 43 :: tok.tail := by
            cases tok with
            | nil => exact absurd hh (by simp)
            | cons a as =>
              simp only [List.head?_cons, Option.some.injEq] at hh
              simp [hh]
          refine ⟨tok.tail, Or.inr htok, hc.1, ?_, hc.2.2, ?_⟩
          · first
            | exact hc.2.1
            | · have := hc.2.1
                simp only [List.all_eq_true, Bool.and_eq_true,
                  decide_eq_true_eq] at this
                exact this
          · exact (Option.some.injEq _ _).mp h |>.symm
        · exact absurd h (by simp)
      · rw [if_neg hh] at h
        split at h
        · next hc =>
          refine ⟨tok, Or.inl rfl, hc.1, ?_, hc.2.2, ?_⟩
          · first
            | exact hc.2.1
            | · have := hc.2.1
                simp only [List.all_eq_true, Bool.and_eq_true,
                  decide_eq_true_eq] at this
                exact this
          · exact (Option.some.injEq _ _).mp h |>.symm
        · exact absurd h (by simp)
    · rintro ⟨ds, hor, hdne, hdig, hlt, hn⟩
      have hall : ds.all (fun b => decide (48 ≤ b) && decide (b ≤ 57)) = true := by
        simp only [List.all_eq_true, Bool.and_eq_true, decide_eq_true_eq]
        exact hdig
      rcases hor with hor | hor
      · subst hor
        have hh : tok.head? ≠ some 43 := by
          cases tok with
          | nil => simp
          | cons a as =>
            have := hdig a (by simp)
            simp only [List.head?_cons, ne_eq, Option.some.injEq]
            omega
        simp only [rust_parse_unsigned]
        rw [if_neg hh, if_pos ⟨hdne, hall, hlt⟩, hn]
      · subst hor
        have hh : (43 :: ds).head? = some 43 := rfl
        simp only [rust_parse_unsigned]
        rw [if_pos hh, List.tail_cons, if_pos ⟨hdne, hall, hlt⟩, hn]
  · intro h2
    simp only [parse_set]
    rw [if_neg hne, if_neg (not_not_intro hkey), h2]
  · intro f hf h2
    simp only [parse_set]
    rw [if_neg hne, if_neg (not_not_intro hkey), hf, h2]
  · intro f e hf hex h2
    simp only [parse_set]
    rw [if_neg hne, if_neg (not_not_intro hkey), hf, hex, h2]

/-- Witness for C2: a `-1` flags token is rejected with `InvalidFlags`. -/
theorem C2_integer_tokens_witness :
    parse_set [[107], [45, 49], [48], [48]] [] 0 = some (.error .invalidFlags) :=
  (C2_integer_tokens 4294967296 0 [] [107] [45, 49] [48] [48] [] [] 0
    (by decide)).2.1 (by decide)

/-- C7: whenever the multi-get returns `Ok`, the results pair the input
keys in order (hence same length), each entry is `none` exactly for a
miss or an expired hit and the decoded value otherwise, the
expired-by-lazy counter is incremented by the number of expired hits,
and no key hit an engine error (an engine error on any key aborts the
whole batch with an error instead). -/
theorem C7_get_multi (db : List Nat → EngineResult) (now : Nat)
    (keys : List (List Nat)) (results : List (List Nat × Option StoredValue))
    (n : Nat) (hok : RocksStorage.get_multi db now keys = .ok (results, n)) :
    results = keys.map (fun k => (k, lazy_entry db now k)) ∧
    n = keys.countP (fun k => expired_hit db now k) ∧
    ∀ k ∈ keys, db k ≠ .error () := by
  induction keys generalizing results n with
  | nil =>
    simp only [RocksStorage.get_multi, Except.ok.injEq, Prod.mk.injEq] at hok
    obtain ⟨h1, h2⟩ := hok
    subst h1
    subst h2
    simp
  | cons k ks ih =>
    cases hdb : db k with
    | error u =>
      simp [RocksStorage.get_multi, hdb] at hok
    | ok dbv =>
      cases dbv with
      | none =>
        cases hrec : RocksStorage.get_multi db now ks with
        | error e =>
          simp [RocksStorage.get_multi, hdb, hrec] at hok
        | ok p =>
          obtain ⟨rs, m⟩ := p
          simp only [RocksStorage.get_multi, hdb, hrec, Except.ok.injEq,
            Prod.mk.injEq] at hok
          obtain ⟨hres, hn⟩ := hok
          subst hres
          subst hn
          obtain ⟨ih1, ih2, ih3⟩ := ih rs m hrec
          have hl : lazy_entry db now k = none := by simp [lazy_entry, hdb]
          have hx : expired_hit db now k = false := by simp [expired_hit, hdb]
          refine ⟨?_, ?_, ?_⟩
          · simp only [List.map_cons, hl]
            rw [ih1]
          · simp [List.countP_cons, hx]
            omega
          · intro k' hk'
            rcases List.mem_cons.mp hk' with h | h
            · subst h
              rw [hdb]
              simp
            · exact ih3 k' h
      | some bytes =>
        cases hdec : StoredValue.decode bytes with
        | error e =>
          simp [RocksStorage.get_multi, hdb, hdec] at hok
        | ok v =>
          by_cases hexp : v.is_expired now = true
          · cases hrec : RocksStorage.get_multi db now ks with
            | error e =>
              simp [RocksStorage.get_multi, hdb, hdec, hexp, hrec] at hok
            | ok p =>
              obtain ⟨rs, m⟩ := p
              simp only [RocksStorage.get_multi, hdb, hdec, hexp, if_true, hrec,
                Except.ok.injEq, Prod.mk.injEq] at hok
              obtain ⟨hres, hn⟩ := hok
              subst hres
              subst hn
              obtain ⟨ih1, ih2, ih3⟩ := ih rs m hrec
              have hl : lazy_entry db now k = none := by
                simp [lazy_entry, hdb, hdec, hexp]
              have hx : expired_hit db now k = true := by
                simp [expired_hit, hdb, hdec, hexp]
              refine ⟨?_, ?_, ?_⟩
              · simp only [List.map_cons, hl]
                rw [ih1]
              · simp [List.countP_cons, hx]
                omega
              · intro k' hk'
                rcases List.mem_cons.mp hk' with h | h
                · subst h
                  rw [hdb]
                  simp
                · exact ih3 k' h
          · rw [Bool.not_eq_true] at hexp
            cases hrec : RocksStorage.get_multi db now ks with
            | error e =>
              simp [RocksStorage.get_multi, hdb, hdec, hexp, hrec] at hok
            | ok p =>
              obtain ⟨rs, m⟩ := p
              simp only [RocksStorage.get_multi, hdb, hdec, hexp,
                Bool.false_eq_true, if_false, hrec, Except.ok.injEq,
                Prod.mk.injEq] at hok
              obtain ⟨hres, hn⟩ := hok
              subst hres
              subst hn
              obtain ⟨ih1, ih2, ih3⟩ := ih rs m hrec
              have hl : lazy_entry db now k = some v := by
                simp [lazy_entry, hdb, hdec, hexp]
              have hx : expired_hit db now k = false := by
                simp [expired_hit, hdb, hdec, hexp]
              refine ⟨?_, ?_, ?_⟩
              · simp only [List.map_cons, hl]
                rw [ih1]
              · simp [List.countP_cons, hx]
                omega
              · intro k' hk'
                rcases List.mem_cons.mp hk' with h | h
                · subst h
                  rw [hdb]
                  simp
                · exact ih3 k' h

/-- Engine content used by the C7 witness: key `[1]` expired at time 1,
key `[2]` never expires, everything else is a miss. -/
def C7_engine : List Nat → EngineResult := fun k =>
  if k = [1] then .ok (some (StoredValue.encode ⟨1, 0, [120]⟩))
  else if k = [2] then .ok (some (StoredValue.encode ⟨0, 3, [121]⟩))
  else .ok none

/-- Witness for C7 on a batch with one expired hit, one fresh hit and
one miss. -/
theorem C7_get_multi_witness :
    [([1], (none : Option StoredValue)), ([2], some ⟨0, 3, [121]⟩), ([3], none)] =
      [[1], [2], [3]].map (fun k => (k, lazy_entry C7_engine 5 k)) ∧
    1 = [[1], [2], [3]].countP (fun k => expired_hit C7_engine 5 k) ∧
    ∀ k ∈ [[1], [2], [3]], C7_engine k ≠ .error () :=
  C7_get_multi C7_engine 5 [[1], [2], [3]]
    [([1], none), ([2], some ⟨0, 3, [121]⟩), ([3], none)] 1 rfl

/-- Tokens equal under `cmd_eq` have equal lengths. -/
theorem cmd_eq_length {c e : List Nat} (h : cmd_eq c e = true) :
    c.length = e.length := by
  unfold cmd_eq at h
  simp only [Bool.and_eq_true, beq_iff_eq] at h
  exact h.1

/-- Comparison `cmd_eq` fails on tokens of the wrong length. -/
theorem cmd_eq_ne_length {c e : List Nat} (h : c.length ≠ e.length) :
    cmd_eq c e = false := by
  unfold cmd_eq
  have hb : (c.length == e.length) = false := by simp [h]
  simp [hb]

/-- A token matching `set` case-insensitively does not match `get`. -/
theorem cmd_eq_set_not_get {c : List Nat} (h : cmd_eq c SET_BYTES = true) :
    cmd_eq c GET_BYTES = false := by
  have hlen : c.length = 3 := cmd_eq_length h
  obtain ⟨a, b, d, rfl⟩ := List.length_eq_three.mp hlen
  simp only [cmd_eq, SET_BYTES, GET_BYTES, List.zip_cons_cons, List.zip_nil_right,
    List.all_cons, List.all_nil, Bool.and_eq_true, beq_iff_eq, List.length_cons,
    List.length_nil] at h
  simp [cmd_eq, GET_BYTES, h.2.1]

/-- Any `Complete` produced by `parse_storage_data` consumes
`command_line_end + 2 + bytes + 2` in machine-word arithmetic. -/
theorem parse_storage_data_consumed (buf : List Nat) (p : PendingStorageCommand)
    (cmd : Command) (m : Nat)
    (h : parse_storage_data buf p = some (.complete cmd m)) :
    m = wadd (wadd (wadd p.command_line_end 2) p.bytes) 2 := by
  simp only [parse_storage_data] at h
  split at h
  · simp at h
  · split at h
    · simp at h
    · split at h
      · simp at h
      · split at h
        · simp at h
        · split at h
          · simp at h
          · split at h
            · simp at h
            · simp only [Option.some.injEq, ParseResult.complete.injEq] at h
              exact h.2.symm

/-- C6: on a buffer whose SET header parses to a pending descriptor and
which holds the full declared body and terminator, the two-phase path
(`parse_storage_command_line` then `parse_storage_data`) agrees exactly
with single-shot `parse` — same `Complete` command and consumed count
`header_end + 2 + bytes + 2`, and `Error(UnexpectedData)` in exactly the
same cases. -/
theorem C6_two_phase (buf : List Nat) (p : PendingStorageCommand)
    (h : parse_storage_command_line buf = .ok (some p))
    (hframe : p.command_line_end + 2 + p.bytes + 2 ≤ buf.length)
    (hbuf : buf.length < 2 ^ 64) :
    parse buf = parse_storage_data buf p ∧
    ∀ cmd m, parse buf = some (.complete cmd m) →
      m = p.command_line_end + 2 + p.bytes + 2 := by
  obtain ⟨pk, pf, pe, pb, pnr, ple⟩ := p
  cases hcr : find_crlf buf with
  | none => simp [parse_storage_command_line, hcr] at h
  | some line_end =>
    cases hsp : (buf.take line_end).splitOn 32 with
    | nil => simp [parse_storage_command_line, hcr, hsp] at h
    | cons cmd_name parts =>
      by_cases hname : cmd_name = []
      · simp [parse_storage_command_line, hcr, hsp, hname] at h
      · by_cases hset : cmd_eq cmd_name SET_BYTES = true
        case neg =>
          simp [parse_storage_command_line, hcr, hsp, hname, hset] at h
        case pos =>
          cases parts with
          | nil => simp [parse_storage_command_line, hcr, hsp, hname, hset] at h
          | cons key parts =>
            by_cases hkey : key = []
            · simp [parse_storage_command_line, hcr, hsp, hname, hset, hkey] at h
            · by_cases hvalid : is_valid_key key = true
              case neg =>
                simp [parse_storage_command_line, hcr, hsp, hname, hset,
                  hkey, hvalid] at h
                split at h <;> simp at h
              case pos =>
                cases parts with
                | nil =>
                  simp [parse_storage_command_line, hcr, hsp, hname, hset, hkey,
                    hvalid] at h
                | cons fTok parts =>
                  cases hf : parse_u32 fTok with
                  | none =>
                    simp [parse_storage_command_line, hcr, hsp, hname, hset, hkey,
                      hvalid, hf] at h
                  | some f =>
                    cases parts with
                    | nil =>
                      simp [parse_storage_command_line, hcr, hsp, hname, hset,
                        hkey, hvalid, hf] at h
                    | cons eTok parts =>
                      cases hex : parse_u64 eTok with
                      | none =>
                        simp [parse_storage_command_line, hcr, hsp, hname, hset,
                          hkey, hvalid, hf, hex] at h
                      | some e =>
                        cases parts with
                        | nil =>
                          simp [parse_storage_command_line, hcr, hsp, hname,
                            hset, hkey, hvalid, hf, hex] at h
                        | cons bTok parts =>
                          cases hbt : parse_usize bTok with
                          | none =>
                            simp [parse_storage_command_line, hcr, hsp, hname,
                              hset, hkey, hvalid, hf, hex, hbt] at h
                          | some b =>
                            simp only [parse_storage_command_line, hcr, hsp,
                              hname, if_false, hset, eq_self_iff_true, not_true,
                              if_true, hkey, hvalid, hf, hex, hbt,
                              Except.ok.injEq, Option.some.injEq,
                              PendingStorageCommand.mk.injEq] at h
                            obtain ⟨h1, h2, h3, h4, h5, h6⟩ := h
                            subst h1
                            subst h2
                            subst h3
                            subst h4
                            subst h5
                            subst h6
                            have hget : cmd_eq cmd_name GET_BYTES = false :=
                              cmd_eq_set_not_get hset
                            have hlen3 : cmd_name.length = 3 := cmd_eq_length hset
                            have hdel : cmd_eq cmd_name DELETE_BYTES = false :=
                              cmd_eq_ne_length (by rw [hlen3]; decide)
                            have hparse : parse buf =
                                parse_storage_data buf
                                  ⟨key, f, e, b, noreply_tok parts, line_end⟩ := by
                              simp only [parse, hcr, hsp, hname, if_false, hget,
                                Bool.false_eq_true, hset, eq_self_iff_true,
                                not_true, if_true, parse_set, hkey, hvalid, hf,
                                hex, hbt, parse_storage_data]
                            refine ⟨hparse, fun cmd m hm => ?_⟩
                            rw [hparse] at hm
                            have hc := parse_storage_data_consumed buf _ cmd m hm
                            simp only [wadd, USIZE] at hc
                            dsimp only at hframe ⊢
                            omega

/-- Witness for C6 on the complete frame `set k 0 0 2\r\nhi\r\n`. -/
theorem C6_two_phase_witness :
    parse [115, 101, 116, 32, 107, 32, 48, 32, 48, 32, 50, 13, 10, 104, 105, 13, 10] =
      parse_storage_data
        [115, 101, 116, 32, 107, 32, 48, 32, 48, 32, 50, 13, 10, 104, 105, 13, 10]
        ⟨[107], 0, 0, 2, false, 11⟩ ∧
    ∀ cmd m,
      parse [115, 101, 116, 32, 107, 32, 48, 32, 48, 32, 50, 13, 10, 104, 105, 13, 10] =
        some (.complete cmd m) → m = 11 + 2 + 2 + 2 :=
  C6_two_phase [115, 101, 116, 32, 107, 32, 48, 32, 48, 32, 50, 13, 10, 104, 105, 13, 10]
    ⟨[107], 0, 0, 2, false, 11⟩ rfl (by decide) (by decide)

/-- Witness for C10 at the source's own test value. -/
theorem C10_roundtrip_witness :
    StoredValue.decode (StoredValue.encode ⟨1234567890, 42, [104, 101, 108, 108, 111]⟩) =
      .ok ⟨1234567890, 42, [104, 101, 108, 108, 111]⟩ :=
  (C10_roundtrip ⟨1234567890, 42, [104, 101, 108, 108, 111]⟩
    (by norm_num) (by norm_num)).1

end PetraCache
